import Mathlib

/-!
Verification of the adsb-logger pipeline against its specification.

The development shallowly embeds the Python sources:

* `src/adsb_logger.py` — record projection (`build_record`, the write loop of
  `main`) and the hourly finalize protocol (`compress_file_to_gz`,
  `close_and_finalize`).
* `src/flight_extractor/file_scanner.py` — `FlightScanner.scan_file` /
  `scan_files`.
* `src/flight_extractor/midnight_handler.py` — `is_same_flight`,
  `split_into_flights`, `detect_crossover` and its helpers.
* `src/callsign_logger/database.py` — `upsert_callsign`, `export_csv`.
* `src/callsign_logger/fr24_api.py` — `FlightRadar24API._request` /
  `test_connection`.

Python strings are modelled as lists of Unicode code points (`PyStr`), with
`str.lower`/`str.upper` modelled on the ASCII range (callsigns and hex codes
in this system are ASCII) and `str.strip` trimming the same whitespace set
Python trims.  Archive lines are modelled together with their JSON
serialization (`json.dumps(..., separators=(",", ":"))`), including the
string-escaping rules of `json.dumps` with `ensure_ascii=True`, since the
scanner's substring prefilter operates on the raw line text.
-/

namespace AdsbLogger

/-! ### Python string primitives -/

/-- A Python string: its sequence of Unicode code points. -/
abbrev PyStr := List Nat

/-- `str.lower` on one code point, ASCII range. -/
def pyLowerChar (c : Nat) : Nat := if 65 ≤ c ∧ c ≤ 90 then c + 32 else c

/-- `str.upper` on one code point, ASCII range. -/
def pyUpperChar (c : Nat) : Nat := if 97 ≤ c ∧ c ≤ 122 then c - 32 else c

/-- `str.lower`. -/
def pyLower (s : PyStr) : PyStr := s.map pyLowerChar

/-- `str.upper`. -/
def pyUpper (s : PyStr) : PyStr := s.map pyUpperChar

/-- The whitespace set stripped by Python's `str.strip()`:
space, tab, newline, carriage return, vertical tab, form feed. -/
def isPySpace (c : Nat) : Bool := c == 32 || c == 9 || c == 10 || c == 13 || c == 11 || c == 12

/-- `str.strip()`: drop leading and trailing whitespace. -/
def pyStrip (s : PyStr) : PyStr :=
  ((s.dropWhile isPySpace).reverse.dropWhile isPySpace).reverse

/-- Embed a Lean string literal as a `PyStr`. -/
def pyStr (s : String) : PyStr := s.data.map Char.toNat

theorem pyLowerChar_pyUpperChar (c : Nat) : pyLowerChar (pyUpperChar c) = pyLowerChar c := by
  unfold pyLowerChar pyUpperChar
  split_ifs <;> omega

theorem pyLowerChar_pyLowerChar (c : Nat) : pyLowerChar (pyLowerChar c) = pyLowerChar c := by
  unfold pyLowerChar
  split_ifs <;> omega

theorem pyLower_pyUpper (s : PyStr) : pyLower (pyUpper s) = pyLower s := by
  unfold pyLower pyUpper
  rw [List.map_map]
  exact List.map_congr_left fun c _ => pyLowerChar_pyUpperChar c

theorem pyLower_pyLower (s : PyStr) : pyLower (pyLower s) = pyLower s := by
  unfold pyLower
  rw [List.map_map]
  exact List.map_congr_left fun c _ => pyLowerChar_pyLowerChar c

theorem pyStrip_infixOf_self (s : PyStr) : pyStrip s <:+: s := by
  unfold pyStrip
  have h1 : (s.dropWhile isPySpace).reverse.dropWhile isPySpace <:+ (s.dropWhile isPySpace).reverse :=
    List.dropWhile_suffix _
  have h2 : ((s.dropWhile isPySpace).reverse.dropWhile isPySpace).reverse <+: s.dropWhile isPySpace := by
    have := List.reverse_prefix.mpr h1
    simpa using this
  exact h2.isInfix.trans (List.dropWhile_suffix _).isInfix

theorem pyStrip_of_ends (a b : Nat) (l : List Nat)
    (ha : isPySpace a = false) (hb : isPySpace b = false) :
    pyStrip (a :: (l ++ [b])) = a :: (l ++ [b]) := by
  have h1 : (a :: (l ++ [b])).dropWhile isPySpace = a :: (l ++ [b]) := by
    rw [List.dropWhile_cons, ha]; simp
  have h2 : (a :: (l ++ [b])).reverse = b :: (l.reverse ++ [a]) := by simp
  unfold pyStrip
  rw [h1, h2, List.dropWhile_cons, hb]
  simp

/-! ### Archive records and their serialized line text

`ScanRec` models a parsed archive record restricted to the fields the
scanner and the flight reconstruction consult: `flight`, `hex` and `_ts`
(`file_scanner.py` reads `record.get("flight")`, `record.get("hex")` and
`record.get("_ts", 0)`).  A `FileLine` is one line of a segment file: either
unparseable text or the line written for a record by
`json.dumps(rec, separators=(",", ":"))` in `adsb_logger.py`; the scanner's
substring prefilter runs on that raw text, so the JSON string-escaping rules
of `json.dumps` (with its default `ensure_ascii=True`) are part of the
model. -/

structure ScanRec where
  flight : Option PyStr
  hex : Option PyStr
  ts : Option Int
deriving DecidableEq

instance : Inhabited ScanRec := ⟨⟨none, none, none⟩⟩

/-- One lowercase hexadecimal digit, as a code point. -/
def hexDigitChar (n : Nat) : Nat := if n < 10 then 48 + n else 87 + n

/-- A `\uXXXX` escape for one 16-bit unit. -/
def uescape4 (c : Nat) : PyStr :=
  [92, 117, hexDigitChar (c / 4096 % 16), hexDigitChar (c / 256 % 16),
   hexDigitChar (c / 16 % 16), hexDigitChar (c % 16)]

/-- How `json.dumps` (default `ensure_ascii=True`) renders one code point of
a JSON string value: the two-character escapes, `\u00XX` for the remaining
control characters, verbatim only for 0x20–0x7e, and `\uXXXX` (surrogate
pairs above the BMP) for everything else, DEL included. -/
def escapeChar (c : Nat) : PyStr :=
  if c = 34 then [92, 34]
  else if c = 92 then [92, 92]
  else if c = 8 then [92, 98]
  else if c = 9 then [92, 116]
  else if c = 10 then [92, 110]
  else if c = 12 then [92, 102]
  else if c = 13 then [92, 114]
  else if c < 32 then uescape4 c
  else if c < 127 then [c]
  else if c < 65536 then uescape4 c
  else uescape4 (55296 + (c - 65536) / 1024) ++ uescape4 (56320 + (c - 65536) % 1024)

def escapeStr (s : PyStr) : PyStr := s.flatMap escapeChar

/-- Decimal rendering of a natural number. -/
def natStr (n : Nat) : PyStr := (Nat.toDigits 10 n).map Char.toNat

/-- Decimal rendering of an integer (code point 45 is the minus sign). -/
def intStr (n : Int) : PyStr := if n < 0 then 45 :: natStr n.natAbs else natStr n.toNat

/-- The `"key":value` pieces of the serialized record, in the insertion
order of `build_record` (absent fields produce no piece). -/
def recFields (r : ScanRec) : List PyStr :=
  (match r.ts with
   | some t => [pyStr "\"_ts\":" ++ intStr t]
   | none => []) ++
  (match r.flight with
   | some f => [pyStr "\"flight\":\"" ++ escapeStr f ++ [34]]
   | none => []) ++
  (match r.hex with
   | some h => [pyStr "\"hex\":\"" ++ escapeStr h ++ [34]]
   | none => [])

/-- Join with the `","` separator of `json.dumps(..., separators=(",", ":"))`. -/
def joinComma : List PyStr → PyStr
  | [] => []
  | [x] => x
  | x :: xs => x ++ 44 :: joinComma xs

/-- The full serialized line: code points 123 and 125 are the braces. -/
def serializeRec (r : ScanRec) : PyStr := 123 :: (joinComma (recFields r) ++ [125])

inductive FileLine where
  | junk (raw : PyStr)
  | record (r : ScanRec)
deriving DecidableEq

/-- The raw text of a line as it sits in the segment file. -/
def lineText : FileLine → PyStr
  | .junk raw => raw
  | .record r => serializeRec r

/-- `json.loads` on a line: junk fails, a record line parses back to it. -/
def parseLine : FileLine → Option ScanRec
  | .junk _ => none
  | .record r => some r

abbrev FileM := List FileLine

/-! ### `FlightScanner.scan_file` / `scan_files` (file_scanner.py)

The file-existence check and the logging of `scan_file` are I/O and are not
part of the model; a file is given by its list of lines. -/

/-- `callsign.strip().upper() if callsign else None` (empty string is falsy). -/
def normSearchUpper (o : Option PyStr) : Option PyStr :=
  match o with
  | none => none
  | some s => if s = [] then none else some (pyUpper (pyStrip s))

/-- `hex_code.strip().lower() if hex_code else None`. -/
def normSearchLower (o : Option PyStr) : Option PyStr :=
  match o with
  | none => none
  | some s => if s = [] then none else some (pyLower (pyStrip s))

/-- Python's `a or b` on optional strings (`None` and `""` are falsy). -/
def pyOrStr (a b : Option PyStr) : Option PyStr :=
  match a with
  | some s => if s = [] then b else some s
  | none => b

/-- `if quick_check and quick_check.lower() not in line.lower(): continue` —
`true` means the line survives the prefilter. -/
def quickPass (quick : Option PyStr) (line : PyStr) : Bool :=
  match quick with
  | some q => decide (pyLower q <:+: pyLower line)
  | none => true

/-- The verification step of `scan_file` after JSON parsing: the trimmed
uppercased `flight` must equal the search callsign (when that is truthy) and
the trimmed lowercased `hex` must equal the search hex (when truthy). -/
def matchLine (searchC searchH : Option PyStr) (r : ScanRec) : Bool :=
  (match searchC with
   | some c => if c = [] then true else pyUpper (pyStrip (r.flight.getD [])) == c
   | none => true) &&
  (match searchH with
   | some h => if h = [] then true else pyLower (pyStrip (r.hex.getD [])) == h
   | none => true)

/-- The body of `scan_file`'s line loop: strip, skip empties, prefilter,
parse, verify. -/
def scanLine (searchC searchH quick : Option PyStr) (e : FileLine) : Option ScanRec :=
  let line := pyStrip (lineText e)
  if line = [] then none
  else if quickPass quick line then
    match parseLine e with
    | none => none
    | some r => if matchLine searchC searchH r then some r else none
  else none

/-- `FlightScanner.scan_file` as the list of records it yields, in order. -/
def scanFile (file : FileM) (callsign hexCode : Option PyStr) : List ScanRec :=
  let searchC := normSearchUpper callsign
  let searchH := normSearchLower hexCode
  let quick := pyOrStr searchC searchH
  file.filterMap (scanLine searchC searchH quick)

def tsKey (r : ScanRec) : Int := r.ts.getD 0

def tsLe (a b : ScanRec) : Prop := tsKey a ≤ tsKey b

instance : DecidableRel tsLe := fun a b => inferInstanceAs (Decidable (tsKey a ≤ tsKey b))

instance : IsTotal ScanRec tsLe := ⟨fun a b => le_total (tsKey a) (tsKey b)⟩

instance : IsTrans ScanRec tsLe := ⟨fun _ _ _ h1 h2 => le_trans h1 h2⟩

/-- `FlightScanner.scan_files`: concatenate the per-file yields, then
`all_records.sort(key=lambda r: r.get("_ts", 0))`.  Python's sort is stable,
so any stable sort by the same key computes the same list; the model uses
stable insertion sort. -/
def scanFiles (files : List FileM) (callsign hexCode : Option PyStr) : List ScanRec :=
  List.insertionSort tsLe (files.flatMap (fun f => scanFile f callsign hexCode))

/-- The parseable records of a file, in file order. -/
def parsedRecords (file : FileM) : List ScanRec := file.filterMap parseLine

/-- The records the specification says a scan must return: every parseable
record of the files that satisfies the match predicate. -/
def matchingRecords (files : List FileM) (callsign hexCode : Option PyStr) : List ScanRec :=
  (files.flatMap parsedRecords).filter
    (matchLine (normSearchUpper callsign) (normSearchLower hexCode))

/-- A code point that `json.dumps` copies verbatim into the line. -/
def plainChar (c : Nat) : Bool := decide (32 ≤ c ∧ c < 127 ∧ c ≠ 34 ∧ c ≠ 92)

def plainStr (s : PyStr) : Bool := s.all plainChar

def plainRec (r : ScanRec) : Bool := plainStr (r.flight.getD []) && plainStr (r.hex.getD [])

/-! ### Prefilter safety lemmas -/

theorem escapeChar_plain {c : Nat} (h : plainChar c = true) : escapeChar c = [c] := by
  simp only [plainChar, decide_eq_true_eq] at h
  obtain ⟨h1, h2, h3, h4⟩ := h
  unfold escapeChar
  split_ifs <;> first | rfl | (exfalso; omega)

theorem escapeStr_plain {s : PyStr} (h : plainStr s = true) : escapeStr s = s := by
  induction s with
  | nil => rfl
  | cons c cs ih =>
    simp only [plainStr, List.all_cons, Bool.and_eq_true] at h
    show escapeChar c ++ escapeStr cs = c :: cs
    rw [escapeChar_plain h.1, ih h.2]
    rfl

theorem mem_infixOf_joinComma {x : PyStr} : ∀ {parts : List PyStr}, x ∈ parts → x <:+: joinComma parts
  | [], h => absurd h (List.not_mem_nil x)
  | [_], h => by
    rw [List.mem_singleton] at h
    subst h
    exact List.infix_refl _
  | p :: p2 :: ps, h => by
    rw [List.mem_cons] at h
    show x <:+: p ++ 44 :: joinComma (p2 :: ps)
    rcases h with h | h
    · subst h
      exact (List.prefix_append _ _).isInfix
    · have ih : x <:+: joinComma (p2 :: ps) := mem_infixOf_joinComma h
      exact ih.trans ((List.suffix_cons 44 _).trans (List.suffix_append _ _)).isInfix

theorem joinComma_infixOf_serializeRec (r : ScanRec) :
    joinComma (recFields r) <:+: serializeRec r := by
  show joinComma (recFields r) <:+: 123 :: (joinComma (recFields r) ++ [125])
  rw [show (123 : Nat) :: (joinComma (recFields r) ++ [125]) =
        [123] ++ joinComma (recFields r) ++ [125] by simp]
  exact List.infix_append _ _ _

theorem flight_infixOf_serializeRec (r : ScanRec) {f : PyStr} (hf : r.flight = some f) :
    escapeStr f <:+: serializeRec r := by
  have hmem : (pyStr "\"flight\":\"" ++ escapeStr f ++ [34]) ∈ recFields r := by
    unfold recFields
    rw [hf]
    cases r.ts <;> cases r.hex <;> simp
  have h1 : escapeStr f <:+: pyStr "\"flight\":\"" ++ escapeStr f ++ [34] :=
    List.infix_append _ _ _
  exact h1.trans ((mem_infixOf_joinComma hmem).trans (joinComma_infixOf_serializeRec r))

theorem hex_infixOf_serializeRec (r : ScanRec) {h : PyStr} (hh : r.hex = some h) :
    escapeStr h <:+: serializeRec r := by
  have hmem : (pyStr "\"hex\":\"" ++ escapeStr h ++ [34]) ∈ recFields r := by
    unfold recFields
    rw [hh]
    cases r.ts <;> cases r.flight <;> simp
  have h1 : escapeStr h <:+: pyStr "\"hex\":\"" ++ escapeStr h ++ [34] :=
    List.infix_append _ _ _
  exact h1.trans ((mem_infixOf_joinComma hmem).trans (joinComma_infixOf_serializeRec r))

theorem pyStrip_serializeRec (r : ScanRec) : pyStrip (serializeRec r) = serializeRec r :=
  pyStrip_of_ends 123 125 (joinComma (recFields r)) rfl rfl

theorem serializeRec_ne_nil (r : ScanRec) : serializeRec r ≠ [] := by
  simp [serializeRec]

/-- Heart of the amended prefilter claim: when the string values of a record
serialize verbatim, a record that passes the verification step also passes
the substring prefilter. -/
theorem quickPass_of_matchLine (callsign hexCode : Option PyStr) (r : ScanRec)
    (hplain : plainRec r = true)
    (hmatch : matchLine (normSearchUpper callsign) (normSearchLower hexCode) r = true) :
    quickPass (pyOrStr (normSearchUpper callsign) (normSearchLower hexCode))
      (pyStrip (serializeRec r)) = true := by
  rw [pyStrip_serializeRec]
  simp only [plainRec, Bool.and_eq_true] at hplain
  simp only [matchLine, Bool.and_eq_true] at hmatch
  obtain ⟨hmC, hmH⟩ := hmatch
  -- the infix fact for the `flight` branch of the prefilter string
  have flightCase : ∀ c : PyStr, normSearchUpper callsign = some c → c ≠ [] →
      pyLower c <:+: pyLower (serializeRec r) := by
    intro c hC hne
    rw [hC] at hmC
    simp only [hne, if_neg, beq_iff_eq, if_false] at hmC
    obtain ⟨f, hf⟩ : ∃ f, r.flight = some f := by
      cases hflight : r.flight with
      | some f => exact ⟨f, rfl⟩
      | none =>
        exfalso
        rw [hflight] at hmC
        simp [pyStrip, pyUpper] at hmC
        exact hne hmC
    rw [hf] at hmC
    simp only [Option.getD_some] at hmC
    have h1 : pyLower c = pyLower (pyStrip f) := by
      rw [← hmC, pyLower_pyUpper]
    have h2 : pyStrip f <:+: f := pyStrip_infixOf_self f
    have h3 : f <:+: serializeRec r := by
      have := flight_infixOf_serializeRec r hf
      rwa [escapeStr_plain (by rw [hf] at hplain; exact hplain.1)] at this
    rw [h1]
    exact (h2.trans h3).map pyLowerChar
  -- the infix fact for the `hex` branch of the prefilter string
  have hexCase : ∀ hq : PyStr, normSearchLower hexCode = some hq → hq ≠ [] →
      pyLower hq <:+: pyLower (serializeRec r) := by
    intro hq hH hne
    rw [hH] at hmH
    simp only [hne, if_neg, beq_iff_eq, if_false] at hmH
    obtain ⟨hx, hhx⟩ : ∃ hx, r.hex = some hx := by
      cases hhex : r.hex with
      | some hx => exact ⟨hx, rfl⟩
      | none =>
        exfalso
        rw [hhex] at hmH
        simp [pyStrip, pyLower] at hmH
        exact hne hmH
    rw [hhx] at hmH
    simp only [Option.getD_some] at hmH
    have h1 : pyLower hq = pyLower (pyStrip hx) := by
      rw [← hmH, pyLower_pyLower]
    have h2 : pyStrip hx <:+: hx := pyStrip_infixOf_self hx
    have h3 : hx <:+: serializeRec r := by
      have := hex_infixOf_serializeRec r hhx
      rwa [escapeStr_plain (by rw [hhx] at hplain; exact hplain.2)] at this
    rw [h1]
    exact (h2.trans h3).map pyLowerChar
  -- case split on what the quick-check string is
  cases hC : normSearchUpper callsign with
  | some c =>
    by_cases hc : c = []
    · subst hc
      cases hH : normSearchLower hexCode with
      | some hq =>
        by_cases hqe : hq = []
        · subst hqe
          simp [quickPass, pyOrStr, pyLower]
        · have := hexCase hq hH hqe
          simp [quickPass, pyOrStr, this]
      | none => simp [quickPass, pyOrStr]
    · have := flightCase c hC hc
      simp [quickPass, pyOrStr, hc, this]
  | none =>
    cases hH : normSearchLower hexCode with
    | some hq =>
      by_cases hqe : hq = []
      · subst hqe
        simp [quickPass, pyOrStr, pyLower]
      · have := hexCase hq hH hqe
        simp [quickPass, pyOrStr, this]
    | none => simp [quickPass, pyOrStr]

/-- Soundness of the scanner's line step, for any prefilter string: it only
ever yields a line's parse when that record satisfies the verification
predicate. -/
theorem scanLine_some_sound (searchC searchH quick : Option PyStr) (e : FileLine) (r : ScanRec)
    (h : scanLine searchC searchH quick e = some r) :
    parseLine e = some r ∧ matchLine searchC searchH r = true := by
  cases e with
  | junk raw =>
    simp only [scanLine, parseLine, lineText] at h
    split_ifs at h
  | record r0 =>
    simp only [scanLine, parseLine, lineText] at h ⊢
    rw [pyStrip_serializeRec, if_neg (serializeRec_ne_nil r0)] at h
    split_ifs at h with hq hm
    simp only [Option.some.injEq] at h
    subst h
    exact ⟨rfl, hm⟩

/-- Completeness of the scanner's line step for a matching record whose
string values serialize verbatim: the prefilter lets its line through. -/
theorem scanLine_some_complete (callsign hexCode : Option PyStr) (e : FileLine) (r : ScanRec)
    (hparse : parseLine e = some r)
    (hmatch : matchLine (normSearchUpper callsign) (normSearchLower hexCode) r = true)
    (hplain : plainRec r = true) :
    scanLine (normSearchUpper callsign) (normSearchLower hexCode)
      (pyOrStr (normSearchUpper callsign) (normSearchLower hexCode)) e = some r := by
  cases e with
  | junk raw => exact absurd hparse (by simp [parseLine])
  | record r0 =>
    obtain rfl : r0 = r := by simpa [parseLine] using hparse
    simp only [scanLine, parseLine, lineText]
    rw [pyStrip_serializeRec, if_neg (serializeRec_ne_nil r0)]
    have hq : quickPass (pyOrStr (normSearchUpper callsign) (normSearchLower hexCode))
        (pyStrip (serializeRec r0)) = true :=
      quickPass_of_matchLine callsign hexCode r0 hplain hmatch
    rw [pyStrip_serializeRec] at hq
    rw [if_pos hq, if_pos hmatch]

/-- Claim C3 as stated is false on the code: for the callsign `A"B` and an
archive line whose record has exactly that `flight` value, `json.dumps`
escapes the quote (the line holds `A\"B`), so the case-insensitive substring
prefilter of `scan_file` skips the line and the record satisfying the
predicate is dropped from the scan result. -/
theorem c3_prefilter_counterexample :
    (⟨some [65, 34, 66], none, some 0⟩ : ScanRec) ∈
        matchingRecords [[FileLine.record ⟨some [65, 34, 66], none, some 0⟩]]
          (some [65, 34, 66]) none
    ∧ (⟨some [65, 34, 66], none, some 0⟩ : ScanRec) ∉
        scanFiles [[FileLine.record ⟨some [65, 34, 66], none, some 0⟩]]
          (some [65, 34, 66]) none := by
  decide

/-- Claim C3, amended: provided every *matching* record — every parseable
record of the scanned files that satisfies the predicate — has `flight` and
`hex` values made of code points that `json.dumps` copies verbatim
(printable ASCII other than quote and backslash — true of all real
callsigns and hex codes), `scan_files(fs, c, h)` returns exactly the
parseable records whose trimmed uppercased `flight` equals the trimmed
uppercased `c` (and whose trimmed lowercased `hex` equals the trimmed
lowercased `h` when `h` is given and truthy), ordered non-decreasing by
`_ts`; under that proviso the substring prefilter never drops a matching
record.  Non-matching records are unconstrained. -/
theorem c3_scan_files_amended (files : List FileM) (callsign hexCode : Option PyStr)
    (hplain : (matchingRecords files callsign hexCode).all plainRec = true) :
    (∀ r : ScanRec,
        r ∈ scanFiles files callsign hexCode ↔ r ∈ matchingRecords files callsign hexCode)
    ∧ List.Sorted tsLe (scanFiles files callsign hexCode) := by
  constructor
  · intro r
    have hrep : scanFiles files callsign hexCode =
        List.insertionSort tsLe (files.flatMap (fun f =>
          f.filterMap (scanLine (normSearchUpper callsign) (normSearchLower hexCode)
            (pyOrStr (normSearchUpper callsign) (normSearchLower hexCode))))) := rfl
    constructor
    · intro hscan
      rw [hrep, (List.perm_insertionSort tsLe _).mem_iff, List.mem_flatMap] at hscan
      obtain ⟨f, hf, hr⟩ := hscan
      rw [List.mem_filterMap] at hr
      obtain ⟨e, he, hsl⟩ := hr
      obtain ⟨hpe, hm⟩ := scanLine_some_sound _ _ _ e r hsl
      unfold matchingRecords
      rw [List.mem_filter, List.mem_flatMap]
      refine ⟨⟨f, hf, ?_⟩, hm⟩
      unfold parsedRecords
      rw [List.mem_filterMap]
      exact ⟨e, he, hpe⟩
    · intro hmem
      have hpr : plainRec r = true := by
        rw [List.all_eq_true] at hplain
        exact hplain r hmem
      unfold matchingRecords at hmem
      rw [List.mem_filter, List.mem_flatMap] at hmem
      obtain ⟨⟨f, hf, hr⟩, hm⟩ := hmem
      unfold parsedRecords at hr
      rw [List.mem_filterMap] at hr
      obtain ⟨e, he, hpe⟩ := hr
      rw [hrep, (List.perm_insertionSort tsLe _).mem_iff, List.mem_flatMap]
      refine ⟨f, hf, ?_⟩
      rw [List.mem_filterMap]
      exact ⟨e, he, scanLine_some_complete callsign hexCode e r hpe hm hpr⟩
  · exact List.sorted_insertionSort tsLe _

/-- The hypothesis of the amended scan theorem is satisfiable: a concrete
one-file archive with a plain-ASCII callsign, the file also holding a
non-plain record that does not match the predicate. -/
theorem c3_scan_files_amended_witness :
    (matchingRecords
        [[FileLine.record ⟨some (pyStr "FDB8876"), some (pyStr "abcdef"), some 5⟩,
          FileLine.record ⟨some [88, 34, 89], none, some 6⟩]]
        (some (pyStr "fdb8876")) none).all plainRec = true
    ∧ ((∀ r : ScanRec,
          r ∈ scanFiles
                [[FileLine.record ⟨some (pyStr "FDB8876"), some (pyStr "abcdef"), some 5⟩,
                  FileLine.record ⟨some [88, 34, 89], none, some 6⟩]]
                (some (pyStr "fdb8876")) none
            ↔ r ∈ matchingRecords
                [[FileLine.record ⟨some (pyStr "FDB8876"), some (pyStr "abcdef"), some 5⟩,
                  FileLine.record ⟨some [88, 34, 89], none, some 6⟩]]
                (some (pyStr "fdb8876")) none)
        ∧ List.Sorted tsLe
            (scanFiles
              [[FileLine.record ⟨some (pyStr "FDB8876"), some (pyStr "abcdef"), some 5⟩,
                FileLine.record ⟨some [88, 34, 89], none, some 6⟩]]
              (some (pyStr "fdb8876")) none)) :=
  ⟨by decide, c3_scan_files_amended _ _ _ (by decide)⟩

/-! ### `is_same_flight` / `split_into_flights` (midnight_handler.py) -/

/-- The lowercased-trimmed `hex` of a record, `(record.get("hex") or "")`
included. -/
def normHex (r : ScanRec) : PyStr := pyLower (pyStrip (r.hex.getD []))

/-- `MidnightCrossoverHandler.is_same_flight` with the gap threshold made
explicit (`max_gap=None` means the configured `flight_gap_threshold`). -/
def isSameFlight (maxGap : Int) (r1 r2 : ScanRec) : Bool :=
  if normHex r1 ≠ normHex r2 then false
  else if |r2.ts.getD 0 - r1.ts.getD 0| > maxGap then false
  else true

theorem isSameFlight_eq_true (maxGap : Int) (r1 r2 : ScanRec) :
    isSameFlight maxGap r1 r2 = true
      ↔ normHex r1 = normHex r2 ∧ |r2.ts.getD 0 - r1.ts.getD 0| ≤ maxGap := by
  unfold isSameFlight
  split_ifs with h1 h2 <;> simp_all

/-- The loop of `split_into_flights`: `prev` is the record compared against
(`records[i-1]`), `cur` holds the current run in reverse. -/
def splitAux (G : Int) (prev : ScanRec) (cur : List ScanRec) :
    List ScanRec → List (List ScanRec)
  | [] => [cur.reverse]
  | r :: rs =>
    if isSameFlight G prev r then splitAux G r (r :: cur) rs
    else cur.reverse :: splitAux G r [r] rs

/-- `MidnightCrossoverHandler.split_into_flights`. -/
def splitIntoFlights (G : Int) : List ScanRec → List (List ScanRec)
  | [] => []
  | r :: rs => splitAux G r [r] rs

theorem splitAux_flatten (G : Int) :
    ∀ (rs : List ScanRec) (prev : ScanRec) (cur : List ScanRec),
      (splitAux G prev cur rs).flatten = cur.reverse ++ rs
  | [], _, cur => by simp [splitAux]
  | r :: rs, prev, cur => by
    unfold splitAux
    split_ifs
    · rw [splitAux_flatten G rs r (r :: cur)]
      simp
    · show cur.reverse ++ (splitAux G r [r] rs).flatten = cur.reverse ++ r :: rs
      rw [splitAux_flatten G rs r [r]]
      simp

theorem splitAux_shape (G : Int) :
    ∀ (rs : List ScanRec) (prev : ScanRec) (cur : List ScanRec),
      ∃ t gs, splitAux G prev cur rs = (cur.reverse ++ t) :: gs
  | [], _, cur => ⟨[], [], by simp [splitAux]⟩
  | r :: rs, prev, cur => by
    unfold splitAux
    split_ifs
    · obtain ⟨t, gs, h⟩ := splitAux_shape G rs r (r :: cur)
      exact ⟨r :: t, gs, by rw [h]; simp⟩
    · exact ⟨[], splitAux G r [r] rs, by simp⟩

theorem splitAux_groups (G : Int) :
    ∀ (rs : List ScanRec) (prev : ScanRec) (cur : List ScanRec),
      cur.head? = some prev →
      List.Chain' (fun a b => isSameFlight G a b = true) cur.reverse →
      ∀ g ∈ splitAux G prev cur rs,
        g ≠ [] ∧ List.Chain' (fun a b => isSameFlight G a b = true) g
  | [], prev, cur, hh, hc => by
    intro g hg
    simp only [splitAux, List.mem_singleton] at hg
    subst hg
    refine ⟨?_, hc⟩
    cases cur <;> simp_all
  | r :: rs, prev, cur, hh, hc => by
    intro g hg
    unfold splitAux at hg
    split_ifs at hg with hsf
    · refine splitAux_groups G rs r (r :: cur) rfl ?_ g hg
      rw [List.reverse_cons, List.chain'_append]
      refine ⟨hc, List.chain'_singleton r, ?_⟩
      intro x hx y hy
      rw [List.getLast?_reverse, hh] at hx
      simp only [Option.mem_def, Option.some.injEq] at hx
      simp only [List.head?_cons, Option.mem_def, Option.some.injEq] at hy
      subst hx; subst hy
      exact hsf
    · rw [List.mem_cons] at hg
      rcases hg with hg | hg
      · subst hg
        refine ⟨?_, hc⟩
        cases cur <;> simp_all
      · exact splitAux_groups G rs r [r] rfl (List.chain'_singleton r) g hg

theorem splitAux_boundaries (G : Int) :
    ∀ (rs : List ScanRec) (prev : ScanRec) (cur : List ScanRec),
      cur.head? = some prev →
      List.Chain' (fun g1 g2 => ∃ a b, g1.getLast? = some a ∧ g2.head? = some b
        ∧ isSameFlight G a b = false) (splitAux G prev cur rs)
  | [], _, cur, _ => by simp [splitAux]
  | r :: rs, prev, cur, hh => by
    unfold splitAux
    split_ifs with hsf
    · exact splitAux_boundaries G rs r (r :: cur) rfl
    · rw [List.chain'_cons']
      refine ⟨?_, splitAux_boundaries G rs r [r] rfl⟩
      intro g2 hg2
      obtain ⟨t, gs, hshape⟩ := splitAux_shape G rs r [r]
      rw [hshape] at hg2
      simp only [List.head?_cons, Option.mem_def, Option.some.injEq] at hg2
      subst hg2
      refine ⟨prev, r, ?_, by simp, by simpa using hsf⟩
      rw [List.getLast?_reverse, hh]

/-- Claim C4: concatenating the runs returned by `split_into_flights`
restores the input list; inside each run every consecutive pair satisfies
`is_same_flight` (equal lowercased-trimmed `hex` — hence one `hex` per run —
and `|Δ_ts| ≤ G`); and at every boundary between consecutive runs the
adjacent record pair violates the same-flight predicate. -/
theorem c4_split_into_flights (G : Int) (L : List ScanRec) :
    (splitIntoFlights G L).flatten = L
    ∧ (∀ g ∈ splitIntoFlights G L,
        g ≠ []
        ∧ List.Chain' (fun a b => isSameFlight G a b = true) g
        ∧ (∀ a ∈ g, ∀ b ∈ g, normHex a = normHex b)
        ∧ List.Chain' (fun a b => |b.ts.getD 0 - a.ts.getD 0| ≤ G) g)
    ∧ List.Chain' (fun g1 g2 => ∃ a b, g1.getLast? = some a ∧ g2.head? = some b
        ∧ isSameFlight G a b = false) (splitIntoFlights G L) := by
  have key : ∀ g ∈ splitIntoFlights G L,
      g ≠ [] ∧ List.Chain' (fun a b => isSameFlight G a b = true) g := by
    intro g hg
    cases L with
    | nil => simp [splitIntoFlights] at hg
    | cons r rs =>
      exact splitAux_groups G rs r [r] rfl (List.chain'_singleton r) g hg
  have hexConst : ∀ {g : List ScanRec},
      List.Chain' (fun a b => isSameFlight G a b = true) g →
      ∀ a ∈ g, ∀ b ∈ g, normHex a = normHex b := by
    have headEq : ∀ (x : ScanRec) (xs : List ScanRec),
        List.Chain' (fun a b => isSameFlight G a b = true) (x :: xs) →
        ∀ y ∈ xs, normHex x = normHex y := by
      intro x xs
      induction xs generalizing x with
      | nil => intro _ y hy; simp at hy
      | cons z zs ih =>
        intro hc y hy
        rw [List.chain'_cons] at hc
        have hxz : normHex x = normHex z := ((isSameFlight_eq_true G x z).mp hc.1).1
        rcases List.mem_cons.mp hy with hy | hy
        · subst hy; exact hxz
        · exact hxz.trans (ih z hc.2 y hy)
    intro g hc a ha b hb
    cases g with
    | nil => simp at ha
    | cons x xs =>
      have hax : normHex x = normHex a := by
        rcases List.mem_cons.mp ha with h | h
        · subst h; rfl
        · exact headEq x xs hc a h
      have hbx : normHex x = normHex b := by
        rcases List.mem_cons.mp hb with h | h
        · subst h; rfl
        · exact headEq x xs hc b h
      exact hax.symm.trans hbx
  refine ⟨?_, ?_, ?_⟩
  · cases L with
    | nil => rfl
    | cons r rs =>
      show (splitAux G r [r] rs).flatten = r :: rs
      rw [splitAux_flatten G rs r [r]]
      rfl
  · intro g hg
    obtain ⟨hne, hc⟩ := key g hg
    refine ⟨hne, hc, hexConst hc, ?_⟩
    exact hc.imp fun a b hab => ((isSameFlight_eq_true G a b).mp hab).2
  · cases L with
    | nil => simp [splitIntoFlights]
    | cons r rs =>
      exact splitAux_boundaries G rs r [r] rfl

/-! ### `detect_crossover` (midnight_handler.py)

Dates are modelled as integer UTC day numbers (`date + timedelta(days=1)` is
`+ 1`; midnight of day `d` is epoch second `d * 86400`, exactly the
`datetime` arithmetic of the source for UTC timestamps).  The archive maps a
`(day, hour)` pair to the segment files `find_files_for_hours(day, hour,
hour)` returns. -/

def Archive := Int → Int → List FileM

/-- `find_files_for_hours(date, start_hour, end_hour)`: files of the date
whose filename hour is in the inclusive range, in hour order. -/
def findFilesForHours (arch : Archive) (d : Int) (hLo hHi : Int) : List FileM :=
  ((List.range 24).filter (fun h => decide (hLo ≤ (h : Int) ∧ (h : Int) ≤ hHi))).flatMap
    (fun h => arch d (h : Int))

/-- The tunables of `MidnightCrossoverHandler` (config.py defaults:
gap 300 s, 6 crossover hours, 3-hour midnight window). -/
structure CrossCfg where
  gapThreshold : Int
  maxCrossoverHours : Nat
  midnightWindow : Int

/-- `hour = hours_checked % 24; if hour == 0 and hours_checked > 0:
current_date += timedelta(days=1)` of `_find_end_date`. -/
def advCur (hc : Nat) (cur : Int) : Int := if hc % 24 = 0 ∧ 0 < hc then cur + 1 else cur

/-- `hour = 23 - (hours_checked % 24); if hour == 23 and hours_checked > 0:
current_date -= timedelta(days=1)` of `_find_start_date`. -/
def advCurB (hc : Nat) (cur : Int) : Int := if hc % 24 = 0 ∧ 0 < hc then cur - 1 else cur

/-- The record loop inside one hour of `_find_end_date`: `.inl` is the early
`return end_date` on a gap, `.inr` the updated `(prev_ts, end_date,
found_any)`. -/
def endHourLoop (gapT : Int) (cur : Int) :
    List ScanRec → Int → Int → Bool → Sum Int (Int × Int × Bool)
  | [], prev, ed, fa => .inr (prev, ed, fa)
  | r :: rs, prev, ed, _ =>
    if r.ts.getD 0 - prev > gapT then .inl ed
    else endHourLoop gapT cur rs (r.ts.getD 0) cur true

/-- The `while hours_checked < max_crossover_hours` loop of
`_find_end_date`; `fuel` is the number of iterations left. -/
def findEndAux (cfg : CrossCfg) (arch : Archive) (cs : PyStr) :
    Nat → Nat → Int → Int → Int → Int
  | 0, _, _, ed, _ => ed
  | fuel + 1, hc, cur, ed, prev =>
    if findFilesForHours arch (advCur hc cur) ((hc % 24 : Nat) : Int) ((hc % 24 : Nat) : Int)
        = [] then
      findEndAux cfg arch cs fuel (hc + 1) (advCur hc cur) ed prev
    else
      match endHourLoop cfg.gapThreshold (advCur hc cur)
          (scanFiles
            (findFilesForHours arch (advCur hc cur) ((hc % 24 : Nat) : Int)
              ((hc % 24 : Nat) : Int))
            (some cs) none) prev ed false with
      | .inl ret => ret
      | .inr (prev2, ed2, foundAny) =>
        if foundAny = false ∧ 0 < hc ∧ (hc : Int) * 3600 > cfg.gapThreshold then ed2
        else findEndAux cfg arch cs fuel (hc + 1) (advCur hc cur) ed2 prev2

/-- `_find_end_date(callsign, check_date, last_known_ts)`. -/
def findEndDate (cfg : CrossCfg) (arch : Archive) (cs : PyStr)
    (checkDate lastKnownTs : Int) : Int :=
  findEndAux cfg arch cs cfg.maxCrossoverHours 0 checkDate (checkDate - 1) lastKnownTs

/-- The `while` loop of `_find_start_date`. -/
def findStartAux (cfg : CrossCfg) (arch : Archive) (cs : PyStr) :
    Nat → Nat → Int → Int → Int → Int
  | 0, _, _, sd, _ => sd
  | fuel + 1, hc, cur, sd, nextTs =>
    if findFilesForHours arch (advCurB hc cur) (23 - ((hc % 24 : Nat) : Int))
        (23 - ((hc % 24 : Nat) : Int)) = [] then
      findStartAux cfg arch cs fuel (hc + 1) (advCurB hc cur) sd nextTs
    else
      match scanFiles
          (findFilesForHours arch (advCurB hc cur) (23 - ((hc % 24 : Nat) : Int))
            (23 - ((hc % 24 : Nat) : Int)))
          (some cs) none with
      | [] =>
        if ((hc + 1 : Nat) : Int) * 3600 > cfg.gapThreshold then sd
        else findStartAux cfg arch cs fuel (hc + 1) (advCurB hc cur) sd nextTs
      | r0 :: rest =>
        if nextTs - ((r0 :: rest).getLast (List.cons_ne_nil r0 rest)).ts.getD 0
            > cfg.gapThreshold then sd
        else findStartAux cfg arch cs fuel (hc + 1) (advCurB hc cur) (advCurB hc cur)
              (r0.ts.getD 0)

/-- `_find_start_date(callsign, check_date, first_known_ts)`. -/
def findStartDate (cfg : CrossCfg) (arch : Archive) (cs : PyStr)
    (checkDate firstKnownTs : Int) : Int :=
  findStartAux cfg arch cs cfg.maxCrossoverHours 0 checkDate (checkDate + 1) firstKnownTs

/-- `_check_forward_crossover`. -/
def checkForwardCrossover (cfg : CrossCfg) (arch : Archive) (cs : PyStr) (d : Int) : Int :=
  if findFilesForHours arch d (24 - cfg.midnightWindow) 23 = [] then d
  else
    match (scanFiles (findFilesForHours arch d (24 - cfg.midnightWindow) 23)
        (some cs) none).getLast? with
    | none => d
    | some lastRec =>
      if (d + 1) * 86400 - lastRec.ts.getD 0 > 1800 then d
      else findEndDate cfg arch cs (d + 1) (lastRec.ts.getD 0)

/-- `_check_backward_crossover`. -/
def checkBackwardCrossover (cfg : CrossCfg) (arch : Archive) (cs : PyStr) (d : Int) : Int :=
  if findFilesForHours arch d 0 (cfg.midnightWindow - 1) = [] then d
  else
    match (scanFiles (findFilesForHours arch d 0 (cfg.midnightWindow - 1))
        (some cs) none).head? with
    | none => d
    | some firstRec =>
      if firstRec.ts.getD 0 - d * 86400 > 1800 then d
      else findStartDate cfg arch cs (d - 1) (firstRec.ts.getD 0)

/-- `MidnightCrossoverHandler.detect_crossover`: the pair
`(start_date, end_date)`. -/
def detectCrossover (cfg : CrossCfg) (arch : Archive) (cs : PyStr) (d : Int) : Int × Int :=
  (checkBackwardCrossover cfg arch cs d, checkForwardCrossover cfg arch cs d)

/-- The date-range step of `FlightExtractor.extract`: resolve the range when
`check_crossover` is set, and derive `crossover_detected` exactly as
extractor.py line 128 does. -/
def extractDates (cfg : CrossCfg) (arch : Archive) (cs : PyStr) (d : Int)
    (checkCrossover : Bool) : Int × Int × Bool :=
  if checkCrossover then
    ((detectCrossover cfg arch cs d).1, (detectCrossover cfg arch cs d).2,
      decide ((detectCrossover cfg arch cs d).1 ≠ d ∨ (detectCrossover cfg arch cs d).2 ≠ d))
  else (d, d, false)

theorem advCur_ge (hc : Nat) (cur : Int) : cur ≤ advCur hc cur := by
  unfold advCur
  split <;> omega

theorem advCurB_le (hc : Nat) (cur : Int) : advCurB hc cur ≤ cur := by
  unfold advCurB
  split <;> omega

theorem endHourLoop_bounds (gapT cur : Int) :
    ∀ (rs : List ScanRec) (prev ed : Int) (fa : Bool),
      (∀ x, endHourLoop gapT cur rs prev ed fa = .inl x → x = ed ∨ x = cur)
      ∧ (∀ p e f, endHourLoop gapT cur rs prev ed fa = .inr (p, e, f) → e = ed ∨ e = cur)
  | [], prev, ed, fa => by
    constructor
    · intro x hx
      simp [endHourLoop] at hx
    · intro p e f he
      simp only [endHourLoop, Sum.inr.injEq, Prod.mk.injEq] at he
      exact Or.inl he.2.1.symm
  | r :: rs, prev, ed, fa => by
    unfold endHourLoop
    split_ifs
    · constructor
      · intro x hx
        simp only [Sum.inl.injEq] at hx
        exact Or.inl hx.symm
      · intro p e f he
        simp at he
    · have ih := endHourLoop_bounds gapT cur rs (r.ts.getD 0) cur true
      constructor
      · intro x hx
        rcases ih.1 x hx with h | h
        · exact Or.inr h
        · exact Or.inr h
      · intro p e f he
        rcases ih.2 p e f he with h | h
        · exact Or.inr h
        · exact Or.inr h

theorem findEndAux_ge (cfg : CrossCfg) (arch : Archive) (cs : PyStr) :
    ∀ (fuel hc : Nat) (cur ed prev : Int), ed ≤ cur →
      ed ≤ findEndAux cfg arch cs fuel hc cur ed prev
  | 0, _, _, ed, _, _ => le_refl ed
  | fuel + 1, hc, cur, ed, prev, h => by
    have hadv : cur ≤ advCur hc cur := advCur_ge hc cur
    unfold findEndAux
    split
    · exact findEndAux_ge cfg arch cs fuel (hc + 1) (advCur hc cur) ed prev (by omega)
    · split
      next ret hloop =>
        rcases (endHourLoop_bounds _ _ _ _ _ _).1 ret hloop with hr | hr <;> omega
      next prev2 ed2 foundAny hloop =>
        have hed2 : ed2 = ed ∨ ed2 = advCur hc cur :=
          (endHourLoop_bounds _ _ _ _ _ _).2 prev2 ed2 foundAny hloop
        split
        · omega
        · have := findEndAux_ge cfg arch cs fuel (hc + 1) (advCur hc cur) ed2 prev2 (by omega)
          omega

theorem findStartAux_le (cfg : CrossCfg) (arch : Archive) (cs : PyStr) :
    ∀ (fuel hc : Nat) (cur sd nextTs : Int), cur ≤ sd →
      findStartAux cfg arch cs fuel hc cur sd nextTs ≤ sd
  | 0, _, _, sd, _, _ => le_refl sd
  | fuel + 1, hc, cur, sd, nextTs, h => by
    have hadv : advCurB hc cur ≤ cur := advCurB_le hc cur
    unfold findStartAux
    split
    · exact findStartAux_le cfg arch cs fuel (hc + 1) (advCurB hc cur) sd nextTs (by omega)
    · split
      · split
        · exact le_refl sd
        · exact findStartAux_le cfg arch cs fuel (hc + 1) (advCurB hc cur) sd nextTs (by omega)
      next r0 rest hscan =>
        split
        · exact le_refl sd
        · have := findStartAux_le cfg arch cs fuel (hc + 1) (advCurB hc cur) (advCurB hc cur)
            (r0.ts.getD 0) (le_refl _)
          omega

theorem checkForwardCrossover_ge (cfg : CrossCfg) (arch : Archive) (cs : PyStr) (d : Int) :
    d ≤ checkForwardCrossover cfg arch cs d := by
  unfold checkForwardCrossover
  split
  · exact le_refl d
  · split
    · exact le_refl d
    next lastRec hlast =>
      split
      · exact le_refl d
      · have := findEndAux_ge cfg arch cs cfg.maxCrossoverHours 0 (d + 1) (d + 1 - 1)
          (lastRec.ts.getD 0) (by omega)
        unfold findEndDate
        omega

theorem checkBackwardCrossover_le (cfg : CrossCfg) (arch : Archive) (cs : PyStr) (d : Int) :
    checkBackwardCrossover cfg arch cs d ≤ d := by
  unfold checkBackwardCrossover
  split
  · exact le_refl d
  · split
    · exact le_refl d
    next firstRec hfirst =>
      split
      · exact le_refl d
      · have := findStartAux_le cfg arch cs cfg.maxCrossoverHours 0 (d - 1) (d - 1 + 1)
          (firstRec.ts.getD 0) (by omega)
        unfold findStartDate
        omega

/-- Claim C5: over any fixed archive, `detect_crossover(callsign, d)`
returns `(actual_start, actual_end)` with `actual_start ≤ d ≤ actual_end`;
it is deterministic (the model is a pure function of the frozen archive);
and the extractor's `crossover_detected` flag is true exactly when
`actual_start ≠ d` or `actual_end ≠ d`. -/
theorem c5_detect_crossover (cfg : CrossCfg) (arch : Archive) (cs : PyStr) (d : Int)
    (checkCrossover : Bool) :
    (detectCrossover cfg arch cs d).1 ≤ d
    ∧ d ≤ (detectCrossover cfg arch cs d).2
    ∧ detectCrossover cfg arch cs d = detectCrossover cfg arch cs d
    ∧ ((extractDates cfg arch cs d checkCrossover).2.2 = true
        ↔ ((extractDates cfg arch cs d checkCrossover).1 ≠ d
            ∨ (extractDates cfg arch cs d checkCrossover).2.1 ≠ d)) := by
  refine ⟨checkBackwardCrossover_le cfg arch cs d, checkForwardCrossover_ge cfg arch cs d,
    rfl, ?_⟩
  unfold extractDates
  cases checkCrossover with
  | false => simp
  | true => simp [detectCrossover]

/-! ### `build_record` and the write loop of `main` (adsb_logger.py)

A snapshot entry is a JSON object: an association list from keys to JSON
values.  Values only need to be carried, never computed with, so a small sum
type suffices; the `"ground"` altitude sentinel is the value
`JVal.jstr "ground"`. -/

inductive JVal where
  | jnull
  | jbool (b : Bool)
  | jint (n : Int)
  | jstr (s : String)
deriving DecidableEq

abbrev Entry := List (String × JVal)

/-- `KEEP_FIELDS` of adsb_logger.py, in source order. -/
def KEEP_FIELDS : List String :=
  ["hex", "flight",
   "lat", "lon",
   "alt_baro", "alt_geom",
   "gs", "ias", "tas", "mach",
   "track", "track_rate",
   "mag_heading", "true_heading", "calc_track",
   "roll",
   "baro_rate", "geom_rate",
   "wd", "ws", "oat", "tat",
   "squawk", "category", "emergency",
   "nav_qnh", "nav_heading", "nav_altitude_mcp", "nav_altitude_fms",
   "nic", "nac_p", "nac_v", "sil", "gva", "sda",
   "rssi", "seen", "seen_pos", "messages",
   "r_dst", "r_dir",
   "mlat", "tisb",
   "t", "r", "desc", "ownOp"]

/-- `build_record(a, ts_epoch, ts_iso, poll_idx)`: the `_ts`/`_ts_iso`/`_poll`
header, `src` copied from `type` when present, then every present
`KEEP_FIELDS` key with its value, in insertion order. -/
def buildRecord (a : Entry) (tsEpoch : Int) (tsIso : String) (pollIdx : Int) :
    List (String × JVal) :=
  [("_ts", JVal.jint tsEpoch), ("_ts_iso", JVal.jstr tsIso), ("_poll", JVal.jint pollIdx)]
  ++ (match a.lookup "type" with
      | some v => [("src", v)]
      | none => [])
  ++ KEEP_FIELDS.filterMap (fun k => (a.lookup k).map (fun v => (k, v)))

/-- `(a.get("hex") or "")` for the falsy-or-string values that Python
handles without raising. -/
def hexStr (a : Entry) : String :=
  match a.lookup "hex" with
  | some (JVal.jstr s) => s
  | _ => ""

/-- Entries on which `(a.get("hex") or "").strip().lower()` does not raise:
the `hex` value is absent, null, a string, or falsy. -/
def hexWF (a : Entry) : Bool :=
  match a.lookup "hex" with
  | none => true
  | some JVal.jnull => true
  | some (JVal.jstr _) => true
  | some (JVal.jbool b) => !b
  | some (JVal.jint n) => n == 0

/-- `hx = (a.get("hex") or "").strip().lower()`. -/
def hexNorm (a : Entry) : PyStr := pyLower (pyStrip (pyStr (hexStr a)))

/-- The record-writing loop of `main` for one poll: skip entries with empty
normalized `hex`, emit `build_record` for the rest, in snapshot order. -/
def writeRecords (aircraft : List Entry) (tsEpoch : Int) (tsIso : String) (pollIdx : Int) :
    List (List (String × JVal)) :=
  aircraft.filterMap fun a =>
    if hexNorm a = [] then none else some (buildRecord a tsEpoch tsIso pollIdx)

theorem lookup_append_eq {α β : Type} [BEq α] (l₁ l₂ : List (α × β)) (k : α) :
    (l₁ ++ l₂).lookup k =
      match l₁.lookup k with
      | some v => some v
      | none => l₂.lookup k := by
  induction l₁ with
  | nil => simp [List.lookup]
  | cons p ps ih =>
    rcases p with ⟨a, v⟩
    show List.lookup k ((a, v) :: (ps ++ l₂)) = _
    rw [List.lookup_cons, List.lookup_cons]
    cases k == a <;> simp [ih]

theorem lookup_assocOf (g : String → Option JVal) (l : List String) (k : String) :
    (l.filterMap (fun f => (g f).map (fun v => (f, v)))).lookup k
      = if k ∈ l then g k else none := by
  induction l with
  | nil => simp [List.lookup]
  | cons f fs ih =>
    cases hgf : g f with
    | none =>
      simp only [List.filterMap_cons, hgf, Option.map_none']
      rw [ih]
      by_cases hk : k = f
      · subst hk
        by_cases hmem : k ∈ fs <;> simp [hmem, hgf]
      · simp [hk]
    | some v =>
      simp only [List.filterMap_cons, hgf, Option.map_some']
      rw [List.lookup_cons]
      by_cases hk : k = f
      · subst hk
        simp [hgf]
      · have : (k == f) = false := beq_eq_false_iff_ne.mpr hk
        rw [this]
        simp only [ih]
        simp [hk]

theorem keys_assocOf (g : String → Option JVal) (l : List String) :
    (l.filterMap (fun f => (g f).map (fun v => (f, v)))).map Prod.fst
      = l.filter (fun f => (g f).isSome) := by
  induction l with
  | nil => rfl
  | cons f fs ih =>
    cases hgf : g f <;>
      simp [List.filterMap_cons, hgf, List.filter_cons, ih]

/-- Claim C1: entries whose lowercased-trimmed `hex` is empty or absent are
skipped; every other entry yields exactly one record whose keys are `_ts`,
`_ts_iso`, `_poll`, `src` (when the entry has `type`) and the present
recognized fields, with values copied unchanged — and no other keys. -/
theorem c1_build_record (aircraft : List Entry) (tsEpoch pollIdx : Int) (tsIso : String)
    (hwf : aircraft.all hexWF = true) :
    writeRecords aircraft tsEpoch tsIso pollIdx
      = (aircraft.filter (fun a => ¬ hexNorm a = [])).map
          (fun a => buildRecord a tsEpoch tsIso pollIdx)
    ∧ ∀ a ∈ aircraft,
        ((buildRecord a tsEpoch tsIso pollIdx).map Prod.fst
          = ["_ts", "_ts_iso", "_poll"]
            ++ (if (a.lookup "type").isSome then ["src"] else [])
            ++ KEEP_FIELDS.filter (fun k => (a.lookup k).isSome))
        ∧ ∀ k : String,
            (buildRecord a tsEpoch tsIso pollIdx).lookup k
              = if k = "_ts" then some (JVal.jint tsEpoch)
                else if k = "_ts_iso" then some (JVal.jstr tsIso)
                else if k = "_poll" then some (JVal.jint pollIdx)
                else if k = "src" then a.lookup "type"
                else if k ∈ KEEP_FIELDS then a.lookup k
                else none := by
  constructor
  · unfold writeRecords
    clear hwf
    induction aircraft with
    | nil => rfl
    | cons a as ih =>
      rw [List.filterMap_cons, List.filter_cons]
      by_cases ha : hexNorm a = [] <;> simp [ha, ih]
  · intro a _
    constructor
    · unfold buildRecord
      rw [List.map_append, List.map_append, keys_assocOf (fun k => a.lookup k)]
      cases htype : a.lookup "type" <;> simp
    · intro k
      unfold buildRecord
      rw [lookup_append_eq, lookup_append_eq]
      by_cases h1 : k = "_ts"
      · subst h1; simp [List.lookup]
      by_cases h2 : k = "_ts_iso"
      · subst h2; simp [List.lookup]
      by_cases h3 : k = "_poll"
      · subst h3; simp [List.lookup]
      have hbase : List.lookup k
          [("_ts", JVal.jint tsEpoch), ("_ts_iso", JVal.jstr tsIso),
           ("_poll", JVal.jint pollIdx)] = none := by
        simp [List.lookup, beq_eq_false_iff_ne.mpr h1, beq_eq_false_iff_ne.mpr h2,
          beq_eq_false_iff_ne.mpr h3]
      rw [hbase]
      by_cases h4 : k = "src"
      · subst h4
        cases htype : a.lookup "type" with
        | none =>
          simp only [List.lookup]
          rw [lookup_assocOf (fun f => a.lookup f)]
          have : ("src" ∈ KEEP_FIELDS) = False := by decide
          simp [htype, this, h1, h2, h3]
        | some v =>
          simp [List.lookup, htype, h1, h2, h3]
      · have hsrc : (match a.lookup "type" with
            | some v => [("src", v)]
            | none => ([] : List (String × JVal))).lookup k = none := by
          cases htype : a.lookup "type" with
          | none => simp [List.lookup]
          | some v => simp [List.lookup, beq_eq_false_iff_ne.mpr h4]
        rw [hsrc]
        simp only []
        rw [lookup_assocOf (fun f => a.lookup f)]
        simp [h1, h2, h3, h4]

/-- The hypothesis of the record-projection theorem is satisfiable: a
two-entry snapshot, one entry without usable `hex`. -/
theorem c1_build_record_witness :
    ([[("hex", JVal.jstr "ABCDEF"), ("type", JVal.jstr "adsb_icao"),
       ("alt_baro", JVal.jstr "ground")],
      [("flight", JVal.jstr "FDB1")]] : List Entry).all hexWF = true
    ∧ writeRecords
        [[("hex", JVal.jstr "ABCDEF"), ("type", JVal.jstr "adsb_icao"),
          ("alt_baro", JVal.jstr "ground")],
         [("flight", JVal.jstr "FDB1")]] 1735689600 "2025-01-01T00:00:00Z" 3
      = ([[("hex", JVal.jstr "ABCDEF"), ("type", JVal.jstr "adsb_icao"),
           ("alt_baro", JVal.jstr "ground")],
          [("flight", JVal.jstr "FDB1")]].filter (fun a => ¬ hexNorm a = [])).map
          (fun a => buildRecord a 1735689600 "2025-01-01T00:00:00Z" 3) := by
  refine ⟨by decide, ?_⟩
  exact (c1_build_record _ 1735689600 3 "2025-01-01T00:00:00Z" (by decide)).1

/-! ### `compress_file_to_gz` / `close_and_finalize` (adsb_logger.py)

The archive state of one hour key K: presence (with an abstract content
token) of `adsb_state_<K>.jsonl`, `adsb_state_<K>.jsonl.gz` and the
`adsb_state_<K>.jsonl.gz.part` temporary. -/

structure KState where
  jsonl : Option Nat
  gz : Option Nat
  part : Option Nat
deriving DecidableEq

/-- Streaming the source into `gzip.open(tmp, "wb")`: `tmp` is opened for
write, truncating any leftover `.part`. -/
def writePart (s : KState) : KState := { s with part := s.jsonl }

/-- `os.replace(tmp, dst_path)`: atomic rename, overwriting any existing
destination. -/
def renamePart (s : KState) : KState := { s with gz := s.part, part := none }

/-- `os.remove(src_path)`. -/
def removeSrc (s : KState) : KState := { s with jsonl := none }

/-- `compress_file_to_gz(src, dst)` as `close_and_finalize` runs it: no-op
when the plain source does not exist, else write the `.part`, rename it to
`.jsonl.gz`, then delete the source.  The flush/fsync/close of the open file
handle in `close_and_finalize` does not change this state. -/
def closeAndFinalize (s : KState) : KState :=
  if s.jsonl = none then s else removeSrc (renamePart (writePart s))

/-- The archive states `compress_file_to_gz` passes through, in program
order (initial state included). -/
def finalizeTrace (s : KState) : List KState :=
  if s.jsonl = none then [s]
  else [s, writePart s, renamePart (writePart s), removeSrc (renamePart (writePart s))]

/-- The operations `main` applies to one hour key's files. -/
inductive WriterOp where
  | openA
  | append
  | finalizeK
deriving DecidableEq

def applyOp (s : KState) : WriterOp → KState
  | .openA => { s with jsonl := some (s.jsonl.getD 0) }
  | .append => { s with jsonl := some (s.jsonl.getD 0 + 1) }
  | .finalizeK => closeAndFinalize s

/-- The lifecycle `main` gives an hour key: open on entering the hour,
append records while it is current, finalize exactly once at rotation (or
shutdown). -/
def hourOps (n : Nat) : List WriterOp :=
  WriterOp.openA :: (List.replicate n WriterOp.append ++ [WriterOp.finalizeK])

theorem appendRun_invariant (n : Nat) :
    ∀ (j : Nat) (st : KState),
      st ∈ List.scanl applyOp ⟨some j, none, none⟩
        (List.replicate n WriterOp.append ++ [WriterOp.finalizeK]) →
      ¬ (st.jsonl ≠ none ∧ st.gz ≠ none) := by
  induction n with
  | zero =>
    intro j st hst
    simp only [List.replicate, List.nil_append, List.scanl_cons, List.scanl_nil,
      List.mem_append, List.mem_singleton] at hst
    rcases hst with h | h
    · subst h; simp
    · subst h; simp [applyOp, closeAndFinalize, removeSrc, renamePart, writePart]
  | succ n ih =>
    intro j st hst
    simp only [List.replicate_succ, List.cons_append, List.scanl_cons, List.singleton_append,
      List.mem_cons] at hst
    rcases hst with h | h
    · subst h; simp
    · exact ih (j + 1) st (by simpa [applyOp] using h)

/-- Claim C2: Finalize on a missing plain file changes nothing; on an
existing one it ends with the `.jsonl.gz` present and the `.jsonl` and
`.part` gone, and the trace shows the rename to `.jsonl.gz` happening
strictly before the source delete (third state: both `.gz` and `.jsonl`
present, no `.part`); and every checkpoint of an hour key's lifecycle —
open, `n` appends, finalize — satisfies the steady-state invariant that the
plain `.jsonl` and the `.jsonl.gz` are never both present. -/
theorem c2_finalize_protocol (s : KState) (n : Nat) :
    closeAndFinalize s = (if s.jsonl = none then s else ⟨none, s.jsonl, none⟩)
    ∧ finalizeTrace s
        = (if s.jsonl = none then [s]
           else [s, ⟨s.jsonl, s.gz, s.jsonl⟩, ⟨s.jsonl, s.jsonl, none⟩, ⟨none, s.jsonl, none⟩])
    ∧ (∀ st ∈ List.scanl applyOp ⟨none, none, none⟩ (hourOps n),
        ¬ (st.jsonl ≠ none ∧ st.gz ≠ none)) := by
  refine ⟨?_, ?_, ?_⟩
  · unfold closeAndFinalize removeSrc renamePart writePart
    split <;> rfl
  · unfold finalizeTrace removeSrc renamePart writePart
    split <;> rfl
  · intro st hst
    simp only [hourOps, List.scanl_cons, List.singleton_append, List.mem_cons] at hst
    rcases hst with h | h
    · subst h; simp
    · exact appendRun_invariant n 0 st (by simpa [applyOp] using h)

/-! ### Startup of `main` (adsb_logger.py) and crash recovery

The output directory as a whole: hour key to `KState`. -/

abbrev HourArchive := List (String × KState)

/-- What `main` does to the archive before entering its steady loop:
`os.makedirs(outdir)`, signal installation, logging — none touch segment
files — and then the first loop iteration opens the *current* hour key for
append.  No scan for leftover `.part` files or stale `.jsonl`/`.jsonl.gz`
pairs of other hour keys exists anywhere in adsb_logger.py. -/
def mainStartup (arch : HourArchive) (currentKey : String) : HourArchive :=
  if (arch.lookup currentKey).isSome then
    arch.map (fun p => if p.1 = currentKey then (p.1, applyOp p.2 .openA) else p)
  else
    (currentKey, applyOp ⟨none, none, none⟩ .openA) :: arch

/-- Claim C6 names behavior that is absent from the code: on a restart in
hour `2025-01-01_05` after a crash that left hour `2025-01-01_00` with both
`adsb_state_K.jsonl` and `adsb_state_K.jsonl.gz.part` (kill between the
`.part` write and the rename) and hour `2025-01-01_01` with both
`adsb_state_K.jsonl` and `adsb_state_K.jsonl.gz` (kill between the rename
and the source delete), `main`'s startup leaves both stale states exactly as
they were: the `.part` is not deleted, Finalize is not re-run, and the
`.jsonl` alongside the `.gz` is not removed — although re-running Finalize
(last conjunct) would have converged as the claim describes. -/
theorem c6_no_startup_recovery :
    (mainStartup
        [("2025-01-01_00", ⟨some 3, none, some 1⟩), ("2025-01-01_01", ⟨some 4, some 4, none⟩)]
        "2025-01-01_05").lookup "2025-01-01_00" = some ⟨some 3, none, some 1⟩
    ∧ (mainStartup
        [("2025-01-01_00", ⟨some 3, none, some 1⟩), ("2025-01-01_01", ⟨some 4, some 4, none⟩)]
        "2025-01-01_05").lookup "2025-01-01_01" = some ⟨some 4, some 4, none⟩
    ∧ (⟨some 3, none, some 1⟩ : KState).part = some 1
    ∧ closeAndFinalize ⟨some 3, none, some 1⟩ = ⟨none, some 3, none⟩
    ∧ closeAndFinalize ⟨some 4, some 4, none⟩ = ⟨none, some 4, none⟩ := by
  decide

/-! ### The callsign registry (callsign_logger/database.py)

One row of the `callsigns` table.  Timestamps are the opaque ISO strings the
code stores; `sighting_count` is an integer. -/

structure Row where
  callsign : String
  airline : String
  hex_code : Option String
  aircraft_type : Option String
  registration : Option String
  flight_number : Option String
  route : Option String
  origin : Option String
  destination : Option String
  first_seen : String
  last_seen : String
  sighting_count : Int
  created_at : String
  updated_at : String
deriving DecidableEq

abbrev CallsignDB := List Row

/-- SQL `COALESCE(?, column)`: the bound parameter when non-null, else the
stored value. -/
def coalesce (new old : Option String) : Option String :=
  match new with
  | some v => some v
  | none => old

/-- The `UPDATE callsigns SET ...` of `upsert_callsign` applied to one row:
touches `last_seen`, `sighting_count`, `updated_at` and the seven coalesced
optional columns, nothing else. -/
def updateRow (now : String)
    (hex_code aircraft_type registration flight_number route origin destination : Option String)
    (r : Row) : Row :=
  { r with
    last_seen := now
    sighting_count := r.sighting_count + 1
    updated_at := now
    hex_code := coalesce hex_code r.hex_code
    aircraft_type := coalesce aircraft_type r.aircraft_type
    registration := coalesce registration r.registration
    flight_number := coalesce flight_number r.flight_number
    route := coalesce route r.route
    origin := coalesce origin r.origin
    destination := coalesce destination r.destination }

/-- The `INSERT INTO callsigns ...` row of `upsert_callsign`. -/
def newRow (now cs airline : String)
    (hex_code aircraft_type registration flight_number route origin destination : Option String) :
    Row :=
  ⟨cs, airline, hex_code, aircraft_type, registration, flight_number, route, origin,
   destination, now, now, 1, now, now⟩

/-- `CallsignDatabase.upsert_callsign` over the table: the `SELECT` by
callsign decides between the `UPDATE` (all rows of that callsign — the
schema's UNIQUE(callsign) means at most one) and the `INSERT`; returns
`is_new` and the new table. -/
def upsertCallsign (db : CallsignDB) (now cs airline : String)
    (hex_code aircraft_type registration flight_number route origin destination : Option String) :
    Bool × CallsignDB :=
  match db.find? (fun r => r.callsign == cs) with
  | some _ =>
    (false, db.map fun r =>
      if r.callsign == cs then
        updateRow now hex_code aircraft_type registration flight_number route origin
          destination r
      else r)
  | none =>
    (true, db ++ [newRow now cs airline hex_code aircraft_type registration flight_number
      route origin destination])

theorem find?_map_update (db : CallsignDB) (cs : String) (u : Row → Row)
    (hpres : ∀ r : Row, (u r).callsign = r.callsign) :
    (db.map fun r => if r.callsign == cs then u r else r).find? (fun r => r.callsign == cs)
      = (db.find? (fun r => r.callsign == cs)).map u := by
  induction db with
  | nil => rfl
  | cons r rs ih =>
    by_cases h : r.callsign = cs
    · have hb : (r.callsign == cs) = true := beq_iff_eq.mpr h
      have hb2 : ((u r).callsign == cs) = true := beq_iff_eq.mpr (by rw [hpres r]; exact h)
      simp only [List.map_cons, hb, if_true, List.find?_cons, hb2]
      rfl
    · have hb : (r.callsign == cs) = false := beq_eq_false_iff_ne.mpr h
      simp only [List.map_cons, hb, Bool.false_eq_true, if_false, List.find?_cons, ih]

theorem find?_map_update_frame (db : CallsignDB) (cs cs2 : String) (hne : cs2 ≠ cs)
    (u : Row → Row) (hpres : ∀ r : Row, (u r).callsign = r.callsign) :
    (db.map fun r => if r.callsign == cs then u r else r).find? (fun r => r.callsign == cs2)
      = db.find? (fun r => r.callsign == cs2) := by
  induction db with
  | nil => rfl
  | cons r rs ih =>
    by_cases h : r.callsign = cs
    · have hb : (r.callsign == cs) = true := beq_iff_eq.mpr h
      have h2 : ((u r).callsign == cs2) = false :=
        beq_eq_false_iff_ne.mpr (by rw [hpres r, h]; exact fun hx => hne hx.symm)
      have h3 : (r.callsign == cs2) = false :=
        beq_eq_false_iff_ne.mpr (by rw [h]; exact fun hx => hne hx.symm)
      simp only [List.map_cons, hb, if_true, List.find?_cons, h2, h3, ih]
    · have hb : (r.callsign == cs) = false := beq_eq_false_iff_ne.mpr h
      simp only [List.map_cons, hb, Bool.false_eq_true, if_false, List.find?_cons, ih]

theorem updateRow_callsign (now : String)
    (hx ty rg fn rt og ds : Option String) (r : Row) :
    (updateRow now hx ty rg fn rt og ds r).callsign = r.callsign := rfl

theorem upsert_fresh (db : CallsignDB) (now cs al : String)
    (hx ty rg fn rt og ds : Option String)
    (hnone : db.find? (fun r => r.callsign == cs) = none) :
    (upsertCallsign db now cs al hx ty rg fn rt og ds).1 = true
    ∧ (upsertCallsign db now cs al hx ty rg fn rt og ds).2.find?
        (fun r => r.callsign == cs)
        = some (newRow now cs al hx ty rg fn rt og ds) := by
  unfold upsertCallsign
  rw [hnone]
  refine ⟨rfl, ?_⟩
  rw [List.find?_append, hnone, Option.none_or, List.find?_cons]
  have hb : ((newRow now cs al hx ty rg fn rt og ds).callsign == cs) = true :=
    beq_iff_eq.mpr rfl
  rw [hb]

theorem upsert_existing (db : CallsignDB) (now cs al : String)
    (hx ty rg fn rt og ds : Option String) (r0 : Row)
    (hsome : db.find? (fun r => r.callsign == cs) = some r0) :
    (upsertCallsign db now cs al hx ty rg fn rt og ds).1 = false
    ∧ (upsertCallsign db now cs al hx ty rg fn rt og ds).2.find?
        (fun r => r.callsign == cs)
        = some (updateRow now hx ty rg fn rt og ds r0) := by
  unfold upsertCallsign
  rw [hsome]
  refine ⟨rfl, ?_⟩
  rw [find?_map_update db cs _ (fun r => updateRow_callsign now hx ty rg fn rt og ds r),
    hsome]
  rfl

/-- Claim C7: a fresh callsign is inserted with
`first_seen = last_seen = created_at = updated_at = now`, count 1, returning
true; an existing row gets `last_seen`/`updated_at` set to now, its count
incremented by exactly one and each optional column overwritten only by a
non-null argument, returning false; composing two upserts on a fresh key
leaves each optional field at Y's value when non-null, else the value after
the first call, with `sighting_count = 2`. -/
theorem c7_upsert_callsign (db : CallsignDB) (now1 now2 cs al al2 : String)
    (hx ty rg fn rt og ds hx2 ty2 rg2 fn2 rt2 og2 ds2 : Option String) :
    (db.find? (fun r => r.callsign == cs) = none →
      (upsertCallsign db now1 cs al hx ty rg fn rt og ds).1 = true
      ∧ (upsertCallsign db now1 cs al hx ty rg fn rt og ds).2.find?
          (fun r => r.callsign == cs)
          = some ⟨cs, al, hx, ty, rg, fn, rt, og, ds, now1, now1, 1, now1, now1⟩)
    ∧ (∀ r0, db.find? (fun r => r.callsign == cs) = some r0 →
      (upsertCallsign db now1 cs al hx ty rg fn rt og ds).1 = false
      ∧ (upsertCallsign db now1 cs al hx ty rg fn rt og ds).2.find?
          (fun r => r.callsign == cs)
          = some (updateRow now1 hx ty rg fn rt og ds r0))
    ∧ (db.find? (fun r => r.callsign == cs) = none →
      (upsertCallsign (upsertCallsign db now1 cs al hx ty rg fn rt og ds).2
          now2 cs al2 hx2 ty2 rg2 fn2 rt2 og2 ds2).2.find? (fun r => r.callsign == cs)
        = some ⟨cs, al, coalesce hx2 hx, coalesce ty2 ty, coalesce rg2 rg, coalesce fn2 fn,
            coalesce rt2 rt, coalesce og2 og, coalesce ds2 ds, now1, now2, 2, now1, now2⟩) := by
  refine ⟨?_, ?_, ?_⟩
  · intro hnone
    exact upsert_fresh db now1 cs al hx ty rg fn rt og ds hnone
  · intro r0 hsome
    exact upsert_existing db now1 cs al hx ty rg fn rt og ds r0 hsome
  · intro hnone
    obtain ⟨-, h1⟩ := upsert_fresh db now1 cs al hx ty rg fn rt og ds hnone
    obtain ⟨-, h2⟩ := upsert_existing (upsertCallsign db now1 cs al hx ty rg fn rt og ds).2
      now2 cs al2 hx2 ty2 rg2 fn2 rt2 og2 ds2 _ h1
    rw [h2]
    show some (updateRow now2 hx2 ty2 rg2 fn2 rt2 og2 ds2
      (newRow now1 cs al hx ty rg fn rt og ds)) = _
    unfold updateRow newRow
    norm_num

/-- The hypotheses of the upsert theorem are satisfiable: a fresh key over
the empty table, upserted twice. -/
theorem c7_upsert_callsign_witness :
    (upsertCallsign [] "t1" "FDB123" "flydubai" (some "abc123") none none none none none
        none).1 = true
    ∧ (upsertCallsign (upsertCallsign [] "t1" "FDB123" "flydubai" (some "abc123") none none
          none none none none).2
        "t2" "FDB123" "flydubai" none (some "B738") none none none none none).2.find?
        (fun r => r.callsign == "FDB123")
      = some ⟨"FDB123", "flydubai", some "abc123", some "B738", none, none, none, none, none,
          "t1", "t2", 2, "t1", "t2"⟩ := by
  refine ⟨((c7_upsert_callsign [] "t1" "t2" "FDB123" "flydubai" "flydubai" (some "abc123")
      none none none none none none none (some "B738") none none none none none).1 rfl).1, ?_⟩
  have h := (c7_upsert_callsign [] "t1" "t2" "FDB123" "flydubai" "flydubai" (some "abc123")
      none none none none none none none (some "B738") none none none none none).2.2 rfl
  exact h

/-- Claim C9: updating an existing row leaves its `callsign`, `airline`,
`first_seen` and `created_at` unchanged, whatever airline argument is
passed, and every other callsign's row is untouched — the `UPDATE` names
only `last_seen`, `sighting_count`, `updated_at` and the seven coalesced
optional columns. -/
theorem c9_upsert_frame (db : CallsignDB) (now cs al : String)
    (hx ty rg fn rt og ds : Option String) (r0 : Row)
    (hsome : db.find? (fun r => r.callsign == cs) = some r0) :
    (upsertCallsign db now cs al hx ty rg fn rt og ds).1 = false
    ∧ ((upsertCallsign db now cs al hx ty rg fn rt og ds).2.find?
        (fun r => r.callsign == cs)).map
          (fun x => (x.callsign, x.airline, x.first_seen, x.created_at))
        = some (r0.callsign, r0.airline, r0.first_seen, r0.created_at)
    ∧ ∀ cs2, cs2 ≠ cs →
        (upsertCallsign db now cs al hx ty rg fn rt og ds).2.find?
          (fun r => r.callsign == cs2) = db.find? (fun r => r.callsign == cs2) := by
  obtain ⟨hnew, hfind⟩ := upsert_existing db now cs al hx ty rg fn rt og ds r0 hsome
  refine ⟨hnew, ?_, ?_⟩
  · rw [hfind]
    rfl
  · intro cs2 hne
    have hup : (upsertCallsign db now cs al hx ty rg fn rt og ds).2
        = db.map fun r =>
            if r.callsign == cs then updateRow now hx ty rg fn rt og ds r else r := by
      unfold upsertCallsign
      rw [hsome]
    rw [hup]
    exact find?_map_update_frame db cs cs2 hne _
      (fun r => updateRow_callsign now hx ty rg fn rt og ds r)

/-- The hypothesis of the frame theorem is satisfiable: a one-row table. -/
theorem c9_upsert_frame_witness :
    ((upsertCallsign
        [⟨"FDB123", "flydubai", none, none, none, none, none, none, none, "t0", "t0", 1,
          "t0", "t0"⟩]
        "t1" "FDB123" "emirates" none none none none none none none).1 = false)
    ∧ ((upsertCallsign
        [⟨"FDB123", "flydubai", none, none, none, none, none, none, none, "t0", "t0", 1,
          "t0", "t0"⟩]
        "t1" "FDB123" "emirates" none none none none none none none).2.find?
        (fun r => r.callsign == "FDB123")).map
          (fun x => (x.callsign, x.airline, x.first_seen, x.created_at))
        = some ("FDB123", "flydubai", "t0", "t0") := by
  have h := c9_upsert_frame
    [⟨"FDB123", "flydubai", none, none, none, none, none, none, none, "t0", "t0", 1,
      "t0", "t0"⟩]
    "t1" "FDB123" "emirates" none none none none none none none
    ⟨"FDB123", "flydubai", none, none, none, none, none, none, none, "t0", "t0", 1,
      "t0", "t0"⟩ rfl
  exact ⟨h.1, h.2.1⟩

/-! ### `get_all_callsigns` / `export_csv` (callsign_logger/database.py) -/

/-- `get_all_callsigns(airline)`: filter when the argument is truthy, then
`ORDER BY sighting_count DESC`.  SQLite does not specify the order of ties;
the model fixes it as a stable descending sort, which the export claims do
not depend on. -/
def countGe (a b : Row) : Prop := b.sighting_count ≤ a.sighting_count

instance : DecidableRel countGe :=
  fun a b => inferInstanceAs (Decidable (b.sighting_count ≤ a.sighting_count))

def getAllCallsigns (db : CallsignDB) (airline : Option String) : List Row :=
  match airline with
  | some a =>
    if a = "" then List.insertionSort countGe db
    else List.insertionSort countGe (db.filter (fun r => r.airline == a))
  | none => List.insertionSort countGe db

/-- `csv.DictWriter` quoting (default QUOTE_MINIMAL dialect): a field is
quoted when it holds the delimiter, the quote char, or a line-break
character, doubling inner quotes. -/
def csvNeedsQuote (s : String) : Bool :=
  s.data.any fun c => c == ',' || c == '"' || c == '\n' || c == '\x0d'

def csvEscapeQuotes (s : String) : String :=
  ⟨s.data.flatMap fun c => if c = '"' then ['"', '"'] else [c]⟩

def csvField (s : String) : String :=
  if csvNeedsQuote s then "\"" ++ csvEscapeQuotes s ++ "\"" else s

/-- The header `DictWriter.writeheader()` emits for the fixed `fieldnames`
of `export_csv`, with the dialect's `\r\n` terminator. -/
def csvHeaderLine : String :=
  "callsign,flight_number,route,origin,destination,airline,hex_code,aircraft_type,registration,first_seen,last_seen,sighting_count\r\n"

/-- One `writer.writerow(...)` of `export_csv`: the fixed column order, each
nullable column passed through `... or ""`. -/
def csvRowLine (r : Row) : String :=
  csvField r.callsign ++ "," ++ csvField (r.flight_number.getD "") ++ ","
    ++ csvField (r.route.getD "") ++ "," ++ csvField (r.origin.getD "") ++ ","
    ++ csvField (r.destination.getD "") ++ "," ++ csvField r.airline ++ ","
    ++ csvField (r.hex_code.getD "") ++ "," ++ csvField (r.aircraft_type.getD "") ++ ","
    ++ csvField (r.registration.getD "") ++ "," ++ csvField r.first_seen ++ ","
    ++ csvField r.last_seen ++ "," ++ toString r.sighting_count ++ "\r\n"

/-- `CallsignDatabase.export_csv`: the file content written and the returned
path. -/
def exportCsv (db : CallsignDB) (airline : Option String) (outputPath : String) :
    String × String :=
  (if getAllCallsigns db airline = [] then "No data\n"
   else csvHeaderLine ++ String.join ((getAllCallsigns db airline).map csvRowLine),
   outputPath)

/-- Claim C10: with no matching rows the file's entire content is the single
line `No data` — no header, no columns — and the output path is still
returned; the fixed header and column order is produced only when at least
one row matches; nulls render as empty cells (last conjunct: a row whose
seven optional columns are all null). -/
theorem c10_export_csv (db : CallsignDB) (airline : Option String) (path : String) :
    exportCsv db airline path
      = (if getAllCallsigns db airline = [] then "No data\n"
         else csvHeaderLine ++ String.join ((getAllCallsigns db airline).map csvRowLine),
         path)
    ∧ csvHeaderLine
        = "callsign,flight_number,route,origin,destination,airline,hex_code,aircraft_type,registration,first_seen,last_seen,sighting_count\r\n"
    ∧ csvRowLine
        ⟨"FDB123", "flydubai", none, none, none, none, none, none, none, "t1", "t2", 4,
          "t0", "t0"⟩
        = "FDB123,,,,,flydubai,,,,t1,t2,4\r\n"
    ∧ exportCsv [] airline path = ("No data\n", path) := by
  refine ⟨rfl, rfl, by decide, ?_⟩
  unfold exportCsv getAllCallsigns
  cases airline with
  | none => rfl
  | some a =>
    by_cases ha : a = "" <;> simp [ha]

/-! ### `FlightRadar24API._request` / `test_connection` (fr24_api.py)

One call to `_request` is driven by what the network returns; the model
takes that outcome as input.  `ok` is a response whose body parses (for
`test_connection`, one carrying the `"data"` key).  The payload is an opaque
token; the rate-limit delay of `_rate_limit` is wall-clock behavior outside
the state modelled here, while the explicit `time.sleep(60)` of the 429
branch is recorded in `sleptSeconds`. -/

inductive ApiOutcome where
  | ok (payload : Nat)
  | httpErr (code : Nat)
  | urlErr
  | exn
deriving DecidableEq

/-- The observable effect of one `_request` call: the returned value, the
`_api_available` flag afterwards, the seconds slept by the 429 branch, and
whether the HTTP request was issued at all. -/
structure ReqResult where
  result : Option Nat
  avail : Option Bool
  sleptSeconds : Nat
  contacted : Bool
deriving DecidableEq

/-- `FlightRadar24API._request`: short-circuit when `_api_available is
False`; otherwise issue the request; 429 sleeps 60 s and returns None;
400/401/403 set the flag to False only when it is still None; URL errors
and other exceptions return None leaving the flag alone. -/
def requestStep (avail : Option Bool) (o : ApiOutcome) : ReqResult :=
  if avail = some false then ⟨none, avail, 0, false⟩
  else
    match o with
    | .ok d => ⟨some d, avail, 0, true⟩
    | .httpErr c =>
      if c = 429 then ⟨none, avail, 60, true⟩
      else if c = 400 ∨ c = 401 ∨ c = 403 then
        ⟨none, if avail = none then some false else avail, 0, true⟩
      else ⟨none, avail, 0, true⟩
    | .urlErr => ⟨none, avail, 0, true⟩
    | .exn => ⟨none, avail, 0, true⟩

/-- A sequence of `_request` calls threading the availability flag. -/
def runRequests (avail : Option Bool) : List ApiOutcome → List ReqResult × Option Bool
  | [] => ([], avail)
  | o :: os =>
    ((requestStep avail o) :: (runRequests (requestStep avail o).avail os).1,
     (runRequests (requestStep avail o).avail os).2)

/-- `FlightRadar24API.test_connection`: probe with a known callsign; a
parsed response carrying data sets the flag to True, anything else to
False. -/
def testConnection (avail : Option Bool) (o : ApiOutcome) : Bool × Option Bool :=
  match (requestStep avail o).result with
  | some _ => (true, some true)
  | none => (false, some false)

theorem runRequests_latched (os : List ApiOutcome) :
    (runRequests (some false) os).2 = some false
    ∧ ∀ s ∈ (runRequests (some false) os).1, s.result = none ∧ s.contacted = false := by
  induction os with
  | nil => exact ⟨rfl, by simp [runRequests]⟩
  | cons o os ih =>
    have hstep : requestStep (some false) o = ⟨none, some false, 0, false⟩ := rfl
    constructor
    · show (runRequests (requestStep (some false) o).avail os).2 = some false
      rw [hstep]
      exact ih.1
    · intro s hs
      rcases List.mem_cons.mp hs with h | h
      · subst h
        rw [hstep]
        exact ⟨rfl, rfl⟩
      · rw [hstep] at h
        exact ih.2 s h

/-- Claim C8 as stated is false on the code: after a successful
`test_connection` the availability flag is `True`, and a subsequent HTTP 403
does *not* latch it (`_request` only sets the flag when it is still `None`),
so the next request still contacts the network and returns its payload
instead of short-circuiting to nil. -/
theorem c8_latch_counterexample :
    (testConnection none (.ok 0)).2 = some true
    ∧ (requestStep (testConnection none (.ok 0)).2 (.httpErr 403)).avail = some true
    ∧ (requestStep (requestStep (testConnection none (.ok 0)).2 (.httpErr 403)).avail
        (.ok 7)).contacted = true
    ∧ (requestStep (requestStep (testConnection none (.ok 0)).2 (.httpErr 403)).avail
        (.ok 7)).result = some 7 := by
  decide

/-- Claim C8, amended: a latched `False` flag short-circuits every
subsequent call (nil result, no network contact) until restart; a 429
response sleeps 60 s and yields nil; a 400/401/403 response latches the flag
*only when it is still unset* (`None`) — with the flag already `True` after
a successful `test_connection` it is left unchanged; URL errors and other
exceptions yield nil without latching. -/
theorem c8_request_amended (avail : Option Bool) (o : ApiOutcome) (os : List ApiOutcome) :
    requestStep (some false) o = ⟨none, some false, 0, false⟩
    ∧ (avail ≠ some false → requestStep avail (.httpErr 429) = ⟨none, avail, 60, true⟩)
    ∧ requestStep none (.httpErr 400) = ⟨none, some false, 0, true⟩
    ∧ requestStep none (.httpErr 401) = ⟨none, some false, 0, true⟩
    ∧ requestStep none (.httpErr 403) = ⟨none, some false, 0, true⟩
    ∧ requestStep (some true) (.httpErr 400) = ⟨none, some true, 0, true⟩
    ∧ requestStep (some true) (.httpErr 401) = ⟨none, some true, 0, true⟩
    ∧ requestStep (some true) (.httpErr 403) = ⟨none, some true, 0, true⟩
    ∧ (avail ≠ some false → requestStep avail .urlErr = ⟨none, avail, 0, true⟩)
    ∧ (avail ≠ some false → requestStep avail .exn = ⟨none, avail, 0, true⟩)
    ∧ ((runRequests (some false) os).2 = some false
        ∧ ∀ s ∈ (runRequests (some false) os).1, s.result = none ∧ s.contacted = false) := by
  refine ⟨rfl, ?_, by decide, by decide, by decide, by decide, by decide, by decide, ?_, ?_,
    runRequests_latched os⟩
  · intro h
    unfold requestStep
    rw [if_neg h]
    rfl
  · intro h
    unfold requestStep
    rw [if_neg h]
  · intro h
    unfold requestStep
    rw [if_neg h]

/-- The hypotheses of the amended request theorem are satisfiable: the flag
set `True` by a successful probe. -/
theorem c8_request_amended_witness :
    requestStep (some true) (.httpErr 429) = ⟨none, some true, 60, true⟩
    ∧ requestStep (some true) .urlErr = ⟨none, some true, 0, true⟩
    ∧ requestStep (some true) .exn = ⟨none, some true, 0, true⟩
    ∧ (runRequests (some false) [.httpErr 403, .ok 7]).2 = some false := by
  obtain ⟨-, h429, -, -, -, -, -, -, hurl, hexn, hrun, -⟩ :=
    c8_request_amended (some true) (.ok 0) [.httpErr 403, .ok 7]
  exact ⟨h429 (by decide), hurl (by decide), hexn (by decide), hrun⟩

end AdsbLogger
